import Mathlib

/-!
Verification development for distronomicon, an unattended release-deployment
agent. Each section shallowly embeds one Rust module of the repository:
pure functions become Lean functions, filesystem state becomes explicit maps
or lists threaded through the functions, and fallible operations return
`Except`. Machine integers (`u64`, `usize`) are modelled as `Nat`: the sizes
involved (file sizes, counts) never approach `2^64` on the paths modelled
here, and the source performs no wrapping arithmetic on them.
-/

/-! ## src/extract.rs — archive extraction with traversal and zip-bomb guards -/

/-- Limits for archive extraction (`ExtractionLimits` in extract.rs). -/
structure ExtractionLimits where
  max_total_extracted_bytes : Nat
  max_file_count : Nat
  max_individual_file_bytes : Nat
  max_decompression_ratio : Nat
deriving DecidableEq

/-- `ExtractionLimits::default()`: 10 GiB / 10 000 / 1 GiB / 100. -/
def defaultLimits : ExtractionLimits :=
  ⟨10 * 1024 * 1024 * 1024, 10000, 1024 * 1024 * 1024, 100⟩

/-- An archive entry path: `absolute` models a leading root component, and
`components` the remaining normal or parent-dir (`".."`) components. -/
structure EntryPath where
  absolute : Bool
  components : List String
deriving DecidableEq

/-- `ExtractError` in extract.rs (the `Io` and `Zip` cases carry external
errors that cannot arise in the pure model and are omitted). -/
inductive ExtractError
  | unsupportedFormat
  | pathValidation (msg : String)
  | limitExceeded (msg : String)
deriving DecidableEq

/-- Display form of an entry path, used in error messages. -/
def entryName (p : EntryPath) : String :=
  (if p.absolute then "/" else "") ++ "/".intercalate p.components

/-- `validate_path` in extract.rs: reject absolute paths and paths containing
a parent-directory component. (The source messages quote `..`.) -/
def validate_path (p : EntryPath) : Except ExtractError Unit :=
  if p.absolute then
    .error (.pathValidation "absolute paths are not allowed")
  else if p.components.contains ".." then
    .error (.pathValidation "paths containing .. are not allowed")
  else
    .ok ()

/-- An entry path is rejected when absolute or containing `..`. -/
def badEntryPath (p : EntryPath) : Bool :=
  p.absolute || p.components.contains ".."

/-- Entry type of an archive member. `other` covers devices, fifos, etc. -/
inductive EntryKind
  | dir
  | symlink
  | file
  | other
deriving DecidableEq

/-- A zip archive member: declared uncompressed size and compressed size from
the header, and `dataLen`, the actual length of the decompressed stream. -/
structure ZipEntry where
  path : EntryPath
  kind : EntryKind
  size : Nat
  compressedSize : Nat
  dataLen : Nat
  unixMode : Option Nat
deriving DecidableEq

/-- `ZipFile::enclosed_name`: `None` when the entry path is absolute or
contains a parent-directory component. -/
def enclosedName (p : EntryPath) : Option EntryPath :=
  if p.absolute || p.components.contains ".." then none else some p

/-- Extraction state of the loop in `unpack_zip` / `unpack_tar`: running
totals plus the files (with written byte counts) and directories created in
the destination so far. -/
structure ExtractState where
  totalBytes : Nat
  fileCount : Nat
  files : List (List String × Nat)
  dirs : List (List String)
deriving DecidableEq

/-- Initial extraction state: `total_bytes = 0`, `file_count = 0`, empty
destination directory. -/
def initState : ExtractState := ⟨0, 0, [], []⟩

/-- The file-count limit message of extract.rs. -/
def fileCountMsg (limits : ExtractionLimits) : String :=
  "file count limit exceeded: " ++ toString limits.max_file_count ++ " files"

/-- The individual-file-size limit message of extract.rs. -/
def individualSizeMsg (size : Nat) (limits : ExtractionLimits) : String :=
  "individual file size limit exceeded: " ++ toString size ++ " bytes (limit: "
    ++ toString limits.max_individual_file_bytes ++ ")"

/-- The decompression-ratio limit message of extract.rs. -/
def ratioMsg (ratio : Nat) (limits : ExtractionLimits) : String :=
  "decompression ratio exceeded: " ++ toString ratio ++ " (limit: "
    ++ toString limits.max_decompression_ratio ++ ")"

/-- The total-bytes limit message of extract.rs. -/
def totalBytesMsg (limits : ExtractionLimits) : String :=
  "total extracted bytes limit exceeded: "
    ++ toString limits.max_total_extracted_bytes ++ " bytes"

/-- One iteration of the entry loop of `unpack_zip` (extract.rs lines
165-237): `enclosed_name`, `validate_path`, entry-type dispatch, the four
limit checks in source order, then the write through the size-limited reader
(a lying header cannot write more than `size` bytes: `min dataLen size`). -/
def zipStep (limits : ExtractionLimits) (st : ExtractState) (e : ZipEntry) :
    Except ExtractError ExtractState :=
  match enclosedName e.path with
  | none => .error (.pathValidation ("invalid entry path: " ++ entryName e.path))
  | some p =>
    match validate_path p with
    | .error err => .error err
    | .ok () =>
      match e.kind with
      | .dir => .ok { st with dirs := st.dirs ++ [p.components] }
      | .symlink => .error (.pathValidation "symbolic links are not allowed")
      | .file =>
        if st.fileCount ≥ limits.max_file_count then
          .error (.limitExceeded (fileCountMsg limits))
        else if e.size > limits.max_individual_file_bytes then
          .error (.limitExceeded (individualSizeMsg e.size limits))
        else if 0 < e.compressedSize ∧
            e.size / e.compressedSize > limits.max_decompression_ratio then
          .error (.limitExceeded (ratioMsg (e.size / e.compressedSize) limits))
        else if st.totalBytes + e.size > limits.max_total_extracted_bytes then
          .error (.limitExceeded (totalBytesMsg limits))
        else
          .ok { st with
                totalBytes := st.totalBytes + min e.dataLen e.size,
                fileCount := st.fileCount + 1,
                files := st.files ++ [(p.components, min e.dataLen e.size)] }
      | .other =>
        .error (.pathValidation ("unsupported entry type for: " ++ entryName e.path))

/-- The entry loop of `unpack_zip`, stopping at the first failing entry. -/
def runZipEntries (limits : ExtractionLimits) :
    List ZipEntry → ExtractState → Except ExtractError ExtractState
  | [], st => .ok st
  | e :: es, st =>
    match zipStep limits st e with
    | .error err => .error err
    | .ok st2 => runZipEntries limits es st2

/-- A tar archive member (header size, actual stream length, mode). -/
structure TarEntry where
  path : EntryPath
  kind : EntryKind
  size : Nat
  dataLen : Nat
  mode : Nat
deriving DecidableEq

/-- One iteration of the entry loop of `unpack_tar` (extract.rs lines
259-317): `validate_path`, entry-type dispatch, file count, individual size
and total size checks (tar has no compressed-size/ratio check), then the
limited write. -/
def tarStep (limits : ExtractionLimits) (st : ExtractState) (e : TarEntry) :
    Except ExtractError ExtractState :=
  match validate_path e.path with
  | .error err => .error err
  | .ok () =>
    match e.kind with
    | .dir => .ok { st with dirs := st.dirs ++ [e.path.components] }
    | .symlink => .error (.pathValidation "symbolic links are not allowed")
    | .file =>
      if st.fileCount ≥ limits.max_file_count then
        .error (.limitExceeded (fileCountMsg limits))
      else if e.size > limits.max_individual_file_bytes then
        .error (.limitExceeded (individualSizeMsg e.size limits))
      else if st.totalBytes + e.size > limits.max_total_extracted_bytes then
        .error (.limitExceeded (totalBytesMsg limits))
      else
        .ok { st with
              totalBytes := st.totalBytes + min e.dataLen e.size,
              fileCount := st.fileCount + 1,
              files := st.files ++ [(e.path.components, min e.dataLen e.size)] }
    | .other => .error (.pathValidation "unsupported entry type")

/-- The entry loop of `unpack_tar`. -/
def runTarEntries (limits : ExtractionLimits) :
    List TarEntry → ExtractState → Except ExtractError ExtractState
  | [], st => .ok st
  | e :: es, st =>
    match tarStep limits st e with
    | .error err => .error err
    | .ok st2 => runTarEntries limits es st2

/-- Drop a leading directory component `t` from a destination path. -/
def stripRootComponent (t : String) (p : List String) : List String :=
  match p with
  | x :: rest => if x = t then rest else p
  | [] => p

/-- The distinct top-level names present in the destination directory. -/
def topLevelNames (st : ExtractState) : List String :=
  ((st.files.map Prod.fst ++ st.dirs).filterMap List.head?).dedup

/-- `detect_and_strip_single_root` in extract.rs: when the destination holds
exactly one entry and it is a directory, move its children up one level and
remove it. -/
def detectAndStripSingleRoot (st : ExtractState) : ExtractState :=
  match topLevelNames st with
  | [t] =>
    if st.files.any (fun f => f.1 == [t]) then st
    else
      { st with
        files := st.files.map (fun f => (stripRootComponent t f.1, f.2)),
        dirs := (st.dirs.filter (fun d => d ≠ [t])).map (stripRootComponent t) }
  | _ => st

/-- `unpack_zip` in extract.rs: run the entry loop from the empty
destination, then strip a single top-level root directory. -/
def unpack_zip (limits : ExtractionLimits) (entries : List ZipEntry) :
    Except ExtractError ExtractState :=
  match runZipEntries limits entries initState with
  | .error err => .error err
  | .ok st => .ok (detectAndStripSingleRoot st)

/-- `unpack_tar` in extract.rs. -/
def unpack_tar (limits : ExtractionLimits) (entries : List TarEntry) :
    Except ExtractError ExtractState :=
  match runTarEntries limits entries initState with
  | .error err => .error err
  | .ok st => .ok (detectAndStripSingleRoot st)

/-- Whether an extraction result is a `PathValidation` error. -/
def isPathValidationError {α : Type} : Except ExtractError α → Bool
  | .error (.pathValidation _) => true
  | _ => false

/-- Whether an extraction result is any error. -/
def isExtractError {α : Type} : Except ExtractError α → Bool
  | .error _ => true
  | .ok _ => false

instance {ε α : Type} [DecidableEq ε] [DecidableEq α] :
    DecidableEq (Except ε α) := fun a b =>
  match a, b with
  | .ok x, .ok y =>
    if h : x = y then .isTrue (by rw [h]) else .isFalse (by simp [h])
  | .error x, .error y =>
    if h : x = y then .isTrue (by rw [h]) else .isFalse (by simp [h])
  | .ok _, .error _ => .isFalse (by simp)
  | .error _, .ok _ => .isFalse (by simp)

/-! ## src/verify.rs — SHA256SUMS manifest parsing and checksum lookup

Strings handled by `parse_checksum_text` are modelled as `List Char`, so
that the byte-indexed `str::split_at(64)` of the source (which panics when
byte index 64 is not a UTF-8 character boundary) can be modelled exactly:
`Char.utf8Size` gives each character's UTF-8 byte width. -/

/-- Rust `char::is_whitespace` (the Unicode White_Space property). -/
def rustIsWhitespace (c : Char) : Bool :=
  let n := c.toNat
  (9 ≤ n && n ≤ 13) || n = 32 || n = 0x85 || n = 0xA0 || n = 0x1680 ||
  (0x2000 ≤ n && n ≤ 0x200A) || n = 0x2028 || n = 0x2029 || n = 0x202F ||
  n = 0x205F || n = 0x3000

/-- Rust `char::is_ascii_hexdigit`. -/
def isAsciiHexDigit (c : Char) : Bool :=
  c.isDigit || ('a' ≤ c && c ≤ 'f') || ('A' ≤ c && c ≤ 'F')

/-- UTF-8 byte length of a character sequence (Rust `str::len`). -/
def utf8Len (cs : List Char) : Nat := (cs.map Char.utf8Size).sum

/-- `str::trim_end_matches('\r')`: remove every trailing carriage return. -/
def dropTrailingCR (cs : List Char) : List Char :=
  (cs.reverse.dropWhile (fun c => c == '\r')).reverse

/-- `str::split_at (n)` on the UTF-8 bytes: `none` models the panic raised
when byte index `n` does not fall on a character boundary. -/
def splitAtBytePos : Nat → List Char → Option (List Char × List Char)
  | 0, cs => some ([], cs)
  | _ + 1, [] => none
  | n + 1, c :: cs =>
    if c.utf8Size ≤ n + 1 then
      match splitAtBytePos (n + 1 - c.utf8Size) cs with
      | some (a, b) => some (c :: a, b)
      | none => none
    else none

/-- Outcome of parsing one manifest line. `crash` models a Rust panic. -/
inductive LineParse
  | skip
  | entry (hex fname : String)
  | failure (msg : String)
  | crash
deriving DecidableEq

/-- One iteration of the line loop of `parse_checksum_text` (verify.rs lines
48-85): trim trailing `\r` and leading whitespace, skip empty and `#` lines,
require at least 66 bytes, split the first 64 bytes as the hex digest
(`str::split_at` panics off a character boundary), check the digest is hex,
strip the `"  "` or `" *"` separator, and require a non-empty filename.
(The source's error messages quote the offending text between apostrophes;
the apostrophes are elided here.) -/
def parse_checksum_line (raw : List Char) : LineParse :=
  let afterCR := dropTrailingCR raw
  let line := afterCR.dropWhile rustIsWhitespace
  if line.isEmpty || line.head? == some '#' then .skip
  else if utf8Len line < 66 then
    .failure ("line too short to contain checksum and filename: " ++ line.asString)
  else
    match splitAtBytePos 64 line with
    | none => .crash
    | some (hex, rest) =>
      if ! hex.all isAsciiHexDigit then
        .failure ("invalid hex characters in checksum: " ++ hex.asString)
      else
        match rest with
        | ' ' :: ' ' :: fname =>
          if fname.isEmpty then
            .failure ("missing filename in line: " ++ line.asString)
          else .entry hex.asString fname.asString
        | ' ' :: '*' :: fname =>
          if fname.isEmpty then
            .failure ("missing filename in line: " ++ line.asString)
          else .entry hex.asString fname.asString
        | _ =>
          .failure ("invalid separator after hex: expected two spaces or space-asterisk, got: "
            ++ rest.asString)

/-- Result of `parse_checksum_text`. `crash` models a Rust panic. -/
inductive ChecksumParse
  | ok (entries : List (String × String))
  | failure (msg : String)
  | crash
deriving DecidableEq

/-- Split on `'\n'` (Rust `str::lines`; a trailing empty segment produced by
a final newline is empty and therefore skipped by the line parser, so the
two agree on every input). -/
def splitOnNl : List Char → List (List Char)
  | [] => [[]]
  | c :: rest =>
    if c == '\n' then [] :: splitOnNl rest
    else
      match splitOnNl rest with
      | [] => [[c]]
      | l :: ls => (c :: l) :: ls

/-- The line loop of `parse_checksum_text`, accumulating `(hex, filename)`
pairs in input order. -/
def parseChecksumLines : List (List Char) → List (String × String) → ChecksumParse
  | [], acc => .ok acc
  | l :: rest, acc =>
    match parse_checksum_line l with
    | .skip => parseChecksumLines rest acc
    | .entry h f => parseChecksumLines rest (acc ++ [(h, f)])
    | .failure m => .failure m
    | .crash => .crash

/-- `parse_checksum_text` in verify.rs. -/
def parse_checksum_text (input : List Char) : ChecksumParse :=
  parseChecksumLines (splitOnNl input) []

/-- `HashMap` insertion: any earlier binding of the key is replaced. -/
def mapInsert (m : List (String × String)) (kv : String × String) :
    List (String × String) :=
  (m.filter (fun e => ! (e.1 == kv.1))) ++ [kv]

/-- `.collect::<HashMap<_, _>>()` over key-value pairs: left fold of
insertion into the empty map. -/
def hashMapCollect (pairs : List (String × String)) : List (String × String) :=
  pairs.foldl mapInsert []

/-- `HashMap::get`. -/
def mapLookup (m : List (String × String)) (k : String) : Option String :=
  (m.find? (fun e => e.1 == k)).map Prod.snd

/-- The checksum map built by `fetch_and_verify_checksum` (verify.rs lines
121-124): parsed `(hex, filename)` pairs are swapped to `(filename, hex)`
and collected into a `HashMap`. -/
def checksumsOf (entries : List (String × String)) : List (String × String) :=
  hashMapCollect (entries.map (fun hf => (hf.2, hf.1)))

/-- The hex of the last manifest entry naming `asset` (specification side of
claim C10, written independently of the map). -/
def lastEntryHex (entries : List (String × String)) (asset : String) :
    Option String :=
  ((entries.filter (fun hf => hf.2 == asset)).getLast?).map Prod.fst

/-- Rust `char::to_ascii_lowercase`. -/
def asciiLower (c : Char) : Char :=
  if 'A' ≤ c && c ≤ 'Z' then Char.ofNat (c.toNat + 32) else c

/-- Rust `str::eq_ignore_ascii_case`. -/
def eqIgnoreAsciiCase (a b : String) : Bool :=
  a.data.map asciiLower == b.data.map asciiLower

/-- Verification outcome of `fetch_and_verify_checksum`. -/
inductive VerifyOutcome
  | ok
  | notFound (asset : String)
  | mismatch (expected actual : String)
deriving DecidableEq

/-- The lookup-and-compare tail of `fetch_and_verify_checksum` (verify.rs
lines 126-149), applied to already-parsed manifest entries and the computed
SHA-256 hex of the downloaded file. -/
def verify_against_checksums (entries : List (String × String))
    (asset : String) (actualHex : String) : VerifyOutcome :=
  match mapLookup (checksumsOf entries) asset with
  | none => .notFound asset
  | some expected =>
    if eqIgnoreAsciiCase actualHex expected then .ok
    else .mismatch expected actualHex

/-! ## src/fsops.rs — atomic move, symlink activation, retention pruning -/

/-- `FsOpsError` in fsops.rs. -/
inductive FsOpsError
  | alreadyExists (target : String)
  | ioErr (msg : String)
deriving DecidableEq

/-- Kind of a filesystem node. -/
inductive FsNode
  | dirNode
  | fileNode
deriving DecidableEq

/-- A flat filesystem view: every existing path (as a component list) with
its node kind. -/
def FsMap : Type := List (List String × FsNode)

/-- Join path components with `/` (display form used in error messages). -/
def joinPath (p : List String) : String := "/".intercalate p

/-- Rust `str::starts_with`, computed on the character lists. -/
def strStartsWith (s pre : String) : Bool := pre.data.isPrefixOf s.data

/-- Error of the `renameat2` system call as used here. -/
inductive RenameErr
  | exist
  | noent
deriving DecidableEq

/-- `renameat_with(CWD, src, CWD, target, RenameFlags::NOREPLACE)`: the
kernel's atomic no-replace rename. When the target exists it fails with
`EEXIST` and changes nothing; otherwise the whole subtree rooted at `src`
moves to `target` in one atomic step. -/
def renameNoreplace (fs : FsMap) (src target : List String) :
    Except RenameErr FsMap :=
  if fs.any (fun kv => kv.1 == target) then .error .exist
  else if fs.any (fun kv => kv.1 == src) then
    .ok (fs.map (fun kv =>
      if src.isPrefixOf kv.1 then (target ++ kv.1.drop src.length, kv.2) else kv))
  else .error .noent

/-- `atomic_move` in fsops.rs (lines 66-93): a single `RENAME_NOREPLACE`
rename of `src_dir` to `<releases_dir>/<tag>`; `EEXIST` is mapped to
`AlreadyExists` naming the target. The subsequent open-and-fsync of
`releases_dir` does not change the filesystem content. The filesystem is
returned alongside the result so that the no-modification-on-failure
behaviour is observable. -/
def atomic_move (fs : FsMap) (src_dir releases_dir : List String) (tag : String) :
    Except FsOpsError (List String) × FsMap :=
  let target := releases_dir ++ [tag]
  match renameNoreplace fs src_dir target with
  | .error .exist => (.error (.alreadyExists (joinPath target)), fs)
  | .error .noent => (.error (.ioErr "rename failed"), fs)
  | .ok fs2 => (.ok target, fs2)

/-- A node in the bin directory: a symlink with its target string, or any
non-symlink entry. -/
inductive BinNode
  | symlink (target : String)
  | regular
deriving DecidableEq

/-- `discover_executables` in fsops.rs applied to the release directory's
regular files, given as (path relative to the release dir, Unix mode):
keep the files with any execute bit set. -/
def discover_executables (releaseFiles : List (List String × Nat)) :
    List (List String) :=
  (releaseFiles.filter (fun f => ! (f.2 &&& 0o111 == 0))).map Prod.fst

/-- The set of basenames of the discovered executables (`current_names` in
`link_binaries`). -/
def currentNames (releaseFiles : List (List String × Nat)) : List String :=
  (discover_executables releaseFiles).filterMap List.getLast?

/-- Whether an existing bin entry is a stale release link: a symlink whose
target begins with `../releases/` and whose name is not among the new
executables' basenames. -/
def isStaleLink (names : List String) (name : String) (node : BinNode) : Bool :=
  match node with
  | .symlink t => strStartsWith t "../releases/" && ! names.contains name
  | .regular => false

/-- The stale-link sweep of `link_binaries` (fsops.rs lines 198-223):
remove every stale release link, keep everything else. -/
def sweepStale (names : List String) (bins : List (String × BinNode)) :
    List (String × BinNode) :=
  bins.filter (fun nb => ! isStaleLink names nb.1 nb.2)

/-- Writing one symlink in `link_binaries` (fsops.rs lines 225-237): remove
a leftover `<name>.tmp`, create the symlink there, rename it over
`<name>` (replacing any existing entry of that name). Net effect on the
directory: the entries named `<name>` and `<name>.tmp` are gone and
`<name>` now holds the new symlink. -/
def writeLink (bins : List (String × BinNode)) (fname target : String) :
    List (String × BinNode) :=
  (bins.filter (fun nb => ! (nb.1 == fname) && ! (nb.1 == fname ++ ".tmp")))
    ++ [(fname, .symlink target)]

/-- The symlink-writing loop of `link_binaries`: each executable's basename
links to `../releases/<tag>/<relative_path>`. -/
def writeLinks (tag : String) :
    List (List String) → List (String × BinNode) →
    Except FsOpsError (List (String × BinNode))
  | [], bins => .ok bins
  | rel :: rest, bins =>
    match rel.getLast? with
    | none => .error (.ioErr "executable has no filename")
    | some fname =>
      writeLinks tag rest
        (writeLink bins fname ("../releases/" ++ tag ++ "/" ++ joinPath rel))

/-- `link_binaries` in fsops.rs (lines 162-243): extract the tag from the
release directory's last component, discover executables, sweep stale
release links, then write the new symlinks (the collision warning is a log
line with no filesystem effect; the final fsync does not change content).
The resulting bin-directory content is returned. -/
def link_binaries (release_dir : List String)
    (releaseFiles : List (List String × Nat)) (bins : List (String × BinNode)) :
    Except FsOpsError (List (String × BinNode)) :=
  match release_dir.getLast? with
  | none => .error (.ioErr "release_dir has no filename")
  | some tag =>
    let executables := discover_executables releaseFiles
    let names := executables.filterMap List.getLast?
    writeLinks tag executables (sweepStale names bins)

/-- A release subdirectory as seen by `prune_old_releases`: its tag (the
directory name) and its modification time. -/
structure PruneEntry where
  tag : String
  mtime : Nat
deriving DecidableEq

/-- The sort comparator of `prune_old_releases` (fsops.rs line 336):
`b.1.cmp(&a.1).then_with(|| b.0.cmp(&a.0))`, i.e. descending by mtime and,
on ties, descending by tag. `pruneLe a b` holds when `a` may precede `b`. -/
def pruneLe (a b : PruneEntry) : Bool :=
  decide (b.mtime < a.mtime ∨ (b.mtime = a.mtime ∧ b.tag ≤ a.tag))

/-- Insertion into a list sorted by `pruneLe` (stable). -/
def insertSorted (x : PruneEntry) : List PruneEntry → List PruneEntry
  | [] => [x]
  | y :: ys => if pruneLe x y then x :: y :: ys else y :: insertSorted x ys

/-- The sort of `prune_old_releases`: stable sort by `pruneLe`. -/
def sortReleases : List PruneEntry → List PruneEntry
  | [] => []
  | x :: xs => insertSorted x (sortReleases xs)

/-- `prune_old_releases` in fsops.rs (lines 307-364), applied to the listed
release subdirectories (non-directory entries are already filtered out by
the source's `filter_map`): sort by (mtime desc, tag desc), skip the first
`retain`, drop the current tag from the deletion list, delete the rest.
In this model every `remove_dir_all` succeeds, so the failed list is empty.
Returns `(deleted_tags, failed_deletions)`. -/
def prune_old_releases (entries : List PruneEntry) (current_tag : String)
    (retain : Nat) : List String × List (String × String) :=
  let sorted := sortReleases entries
  let to_delete :=
    ((sorted.drop retain).map PruneEntry.tag).filter (fun t => ! (t == current_tag))
  (to_delete, [])

/-- Number of release subdirectories left after pruning: the listed entries
minus the deleted ones. -/
def remainingReleaseCount (entries : List PruneEntry) (current_tag : String)
    (retain : Nat) : Nat :=
  ((entries.map PruneEntry.tag).filter
    (fun t => ! (prune_old_releases entries current_tag retain).1.contains t)).length

/-! ## src/state.rs — the persisted state document

`state::save_atomic` serializes a `State` with `serde_json` and writes it
through a same-directory temp file, fsync and rename; `state::load` reads
the file back and parses it. The text layer (`serde_json`'s string escaping
and `jiff`'s RFC 3339 timestamp rendering) lives in external crates and is
bijective on the values involved, so the document is modelled at the JSON
value level: a `Json.ts` leaf stands for the RFC 3339 string `jiff`
produces for that timestamp (nanoseconds since the epoch), and a file holds
a JSON value. -/

/-- A JSON document as relevant to `state.json`. -/
inductive Json
  | str (s : String)
  | ts (nanos : Int)
  | obj (fields : List (String × Json))

/-- `State` in state.rs. Timestamps are nanoseconds since the epoch. -/
structure State where
  latest_tag : String
  etag : String
  last_modified : Int
  installed_at : Int
deriving DecidableEq

/-- Field lookup in a JSON object (first binding wins; the serializer never
emits duplicate keys). -/
def getField : List (String × Json) → String → Option Json
  | [], _ => none
  | (k, v) :: rest, key => if k = key then some v else getField rest key

/-- Read a JSON string leaf. -/
def jsonStr? : Json → Option String
  | .str s => some s
  | _ => none

/-- Read a JSON timestamp leaf. -/
def jsonTs? : Json → Option Int
  | .ts t => some t
  | _ => none

/-- The derived `Serialize` of `State`: a four-field object. -/
def serialize_state (s : State) : Json :=
  .obj [("latest_tag", .str s.latest_tag), ("etag", .str s.etag),
        ("last_modified", .ts s.last_modified), ("installed_at", .ts s.installed_at)]

/-- The derived `Deserialize` of `State`: all four fields must be present
with the right types; unknown fields are ignored. -/
def deserialize_state (j : Json) : Option State :=
  match j with
  | .obj fields =>
    match (getField fields "latest_tag").bind jsonStr?,
          (getField fields "etag").bind jsonStr?,
          (getField fields "last_modified").bind jsonTs?,
          (getField fields "installed_at").bind jsonTs? with
    | some a, some b, some c, some d => some ⟨a, b, c, d⟩
    | _, _, _, _ => none
  | _ => none

/-- A file system for the state store: path to file content. -/
def StateFs : Type := String → Option Json

/-- `StateError` in state.rs as observable by `load` in this model. -/
inductive StateError
  | serialization
deriving DecidableEq

/-- `save_atomic` in state.rs (lines 62-83): serialize and write; the
temp-file/fsync/rename dance makes the write atomic but its net effect on
the file content is this update. -/
def save_atomic (fs : StateFs) (path : String) (s : State) : StateFs :=
  fun p => if p = path then some (serialize_state s) else fs p

/-- `load` in state.rs (lines 39-48): absent file gives `none`; a present
file must parse as a `State`. -/
def load (fs : StateFs) (path : String) : Except StateError (Option State) :=
  match fs path with
  | none => .ok none
  | some doc =>
    match deserialize_state doc with
    | some st => .ok (some st)
    | none => .error .serialization

/-! ## src/download.rs and src/main.rs — download request, version command -/

/-- An HTTP request as built by the downloader (only the parts the claims
speak about: URL and headers). -/
structure HttpRequest where
  url : String
  headers : List (String × String)
deriving DecidableEq

/-- `DownloadError` cases reachable in the request-building model. -/
inductive DownloadError
  | insecureUrl
deriving DecidableEq

/-- The request construction of `download::fetch` (download.rs lines 54-74):
after the HTTPS check, the request always carries
`Authorization: Bearer <token>` for the token the caller passed. -/
def fetch_request (url : String) (token : String) (allow_insecure : Bool) :
    Except DownloadError HttpRequest :=
  if ! allow_insecure && ! strStartsWith url "https://" then .error .insecureUrl
  else .ok ⟨url, [("Authorization", "Bearer " ++ token)]⟩

/-- The downloader invocation in `main::download_and_verify_asset` (main.rs
lines 53-57): the token passed to `fetch` is `github_token.unwrap_or("")`,
and the insecure-URL override is left at its default (off). -/
def download_request (url : String) (github_token : Option String) :
    Except DownloadError HttpRequest :=
  fetch_request url (github_token.getD "") false

/-- Whether a request carries an `Authorization` header. -/
def hasAuthHeader (r : HttpRequest) : Bool :=
  r.headers.any (fun h => h.1 == "Authorization")

/-- Observable outcome of a CLI invocation. -/
structure CmdOutput where
  stdout : String
  stderr : String
  exit : Nat
deriving DecidableEq

/-- The `Commands::Version` branch of `main` (main.rs lines 274-283), as a
function of `version::current_tag`: a tag is printed to stdout; with no tag
it prints `No version installed` to stderr and exits with status 1. -/
def mainVersionCommand (current_tag : Option String) : CmdOutput :=
  match current_tag with
  | some tag => ⟨tag ++ "\n", "", 0⟩
  | none => ⟨"", "No version installed\n", 1⟩

/-- `cli::handle_version` (cli.rs lines 557-567) on the non-verbose path: a
tag is printed to stdout; with no tag nothing is printed and the command
returns success. -/
def handle_version (current_tag : Option String) : CmdOutput :=
  match current_tag with
  | some tag => ⟨tag ++ "\n", "", 0⟩
  | none => ⟨"", "", 0⟩

/-- A zip entry whose declared size (2 GiB) exceeds the default 1 GiB
individual-file limit. -/
def bigEntry : ZipEntry :=
  ⟨⟨false, ["big"]⟩, .file, 2147483648, 2147483648, 2147483648, none⟩

/-- A zip entry whose path is the parent-directory traversal `..`. -/
def traversalEntry : ZipEntry := ⟨⟨false, [".."]⟩, .file, 1, 1, 1, none⟩

/-- A manifest line of 63 `a` characters followed by `é` (two UTF-8 bytes
spanning byte indices 63-64) and `  x`: 68 bytes long, not empty, not a
comment, and byte index 64 is not a character boundary. -/
def crashLine : List Char := List.replicate 63 'a' ++ ['é', ' ', ' ', 'x']

/-! ## Theorems -/

theorem zipStep_badPath (limits : ExtractionLimits) (st : ExtractState)
    (e : ZipEntry) (h : badEntryPath e.path = true) :
    zipStep limits st e =
      .error (.pathValidation ("invalid entry path: " ++ entryName e.path)) := by
  have h2 : e.path.absolute = true ∨ ".." ∈ e.path.components := by
    unfold badEntryPath at h
    simpa using h
  simp [zipStep, enclosedName, h2]

theorem tarStep_badPath (limits : ExtractionLimits) (e : TarEntry)
    (h : badEntryPath e.path = true) :
    ∃ msg, ∀ st, tarStep limits st e = .error (.pathValidation msg) := by
  unfold badEntryPath at h
  by_cases ha : e.path.absolute = true
  · exact ⟨"absolute paths are not allowed", fun st => by
      simp [tarStep, validate_path, ha]⟩
  · have hc : ".." ∈ e.path.components := by
      have h2 : e.path.absolute = true ∨ ".." ∈ e.path.components := by
        simpa using h
      rcases h2 with h1 | h1
      · exact absurd h1 ha
      · exact h1
    exact ⟨"paths containing .. are not allowed", fun st => by
      simp [tarStep, validate_path, ha, hc]⟩

theorem runZipEntries_append (limits : ExtractionLimits)
    (pre rest : List ZipEntry) (st : ExtractState) :
    runZipEntries limits (pre ++ rest) st =
      match runZipEntries limits pre st with
      | .error err => .error err
      | .ok st2 => runZipEntries limits rest st2 := by
  induction pre generalizing st with
  | nil => simp [runZipEntries]
  | cons e es ih =>
    simp only [List.cons_append, runZipEntries]
    cases zipStep limits st e with
    | error err => rfl
    | ok st2 => exact ih st2

theorem runTarEntries_append (limits : ExtractionLimits)
    (pre rest : List TarEntry) (st : ExtractState) :
    runTarEntries limits (pre ++ rest) st =
      match runTarEntries limits pre st with
      | .error err => .error err
      | .ok st2 => runTarEntries limits rest st2 := by
  induction pre generalizing st with
  | nil => simp [runTarEntries]
  | cons e es ih =>
    simp only [List.cons_append, runTarEntries]
    cases tarStep limits st e with
    | error err => rfl
    | ok st2 => exact ih st2

theorem runZipEntries_error_of_bad (limits : ExtractionLimits)
    (entries : List ZipEntry) (e : ZipEntry) (hmem : e ∈ entries)
    (hbad : badEntryPath e.path = true) (st : ExtractState) :
    isExtractError (runZipEntries limits entries st) = true := by
  induction entries generalizing st with
  | nil => cases hmem
  | cons x xs ih =>
    simp only [runZipEntries]
    cases hx : zipStep limits st x with
    | error err => rfl
    | ok st2 =>
      rcases List.mem_cons.mp hmem with rfl | hmem2
      · rw [zipStep_badPath limits st e hbad] at hx
        cases hx
      · exact ih hmem2 st2

theorem runTarEntries_error_of_bad (limits : ExtractionLimits)
    (entries : List TarEntry) (e : TarEntry) (hmem : e ∈ entries)
    (hbad : badEntryPath e.path = true) (st : ExtractState) :
    isExtractError (runTarEntries limits entries st) = true := by
  induction entries generalizing st with
  | nil => cases hmem
  | cons x xs ih =>
    simp only [runTarEntries]
    cases hx : tarStep limits st x with
    | error err => rfl
    | ok st2 =>
      rcases List.mem_cons.mp hmem with rfl | hmem2
      · obtain ⟨msg, hmsg⟩ := tarStep_badPath limits e hbad
        rw [hmsg st] at hx
        cases hx
      · exact ih hmem2 st2

theorem unpack_zip_isError (limits : ExtractionLimits) (entries : List ZipEntry) :
    isExtractError (unpack_zip limits entries) =
      isExtractError (runZipEntries limits entries initState) := by
  unfold unpack_zip
  cases runZipEntries limits entries initState <;> rfl

theorem unpack_tar_isError (limits : ExtractionLimits) (entries : List TarEntry) :
    isExtractError (unpack_tar limits entries) =
      isExtractError (runTarEntries limits entries initState) := by
  unfold unpack_tar
  cases runTarEntries limits entries initState <;> rfl

/-- C1 (amended): for every zip or tar archive containing an entry whose
path is absolute or contains a parent-directory component, `unpack` of that
archive fails (it never succeeds, so the offending entry is never
extracted); and whenever every entry preceding the offending one extracts
successfully, the error returned is `PathValidation`. (An entry preceding
the offending one may instead fail first, e.g. with `LimitExceeded`, which
is what the counterexample exhibits.) -/
theorem c1_unpack_rejects_traversal (limits : ExtractionLimits)
    (zpre zpost : List ZipEntry) (ze : ZipEntry)
    (tpre tpost : List TarEntry) (te : TarEntry)
    (hz : badEntryPath ze.path = true)
    (ht : badEntryPath te.path = true) :
    (isExtractError (unpack_zip limits (zpre ++ ze :: zpost)) = true ∧
      (∀ st, runZipEntries limits zpre initState = .ok st →
        unpack_zip limits (zpre ++ ze :: zpost) =
          .error (.pathValidation ("invalid entry path: " ++ entryName ze.path)))) ∧
    (isExtractError (unpack_tar limits (tpre ++ te :: tpost)) = true ∧
      (∀ st, runTarEntries limits tpre initState = .ok st →
        ∃ msg, unpack_tar limits (tpre ++ te :: tpost) =
          .error (.pathValidation msg))) := by
  refine ⟨⟨?_, ?_⟩, ?_, ?_⟩
  · rw [unpack_zip_isError]
    exact runZipEntries_error_of_bad limits _ ze
      (List.mem_append.mpr (Or.inr (List.mem_cons_self _ _))) hz initState
  · intro st hpre
    have hrun : runZipEntries limits (zpre ++ ze :: zpost) initState =
        .error (.pathValidation ("invalid entry path: " ++ entryName ze.path)) := by
      rw [runZipEntries_append, hpre]
      simp only [runZipEntries, zipStep_badPath limits st ze hz]
    unfold unpack_zip
    rw [hrun]
  · rw [unpack_tar_isError]
    exact runTarEntries_error_of_bad limits _ te
      (List.mem_append.mpr (Or.inr (List.mem_cons_self _ _))) ht initState
  · intro st hpre
    obtain ⟨msg, hmsg⟩ := tarStep_badPath limits te ht
    refine ⟨msg, ?_⟩
    have hrun : runTarEntries limits (tpre ++ te :: tpost) initState =
        .error (.pathValidation msg) := by
      rw [runTarEntries_append, hpre]
      simp only [runTarEntries, hmsg st]
    unfold unpack_tar
    rw [hrun]

/-- C1 witness: the amended theorem applied to a one-entry zip archive whose
entry path is `..` and a one-entry tar archive with the absolute path
`/etc/passwd`. -/
theorem c1_witness :
    badEntryPath traversalEntry.path = true ∧
    unpack_zip defaultLimits [traversalEntry] =
      .error (.pathValidation ("invalid entry path: " ++ entryName traversalEntry.path)) ∧
    isExtractError
      (unpack_tar defaultLimits [⟨⟨true, ["etc", "passwd"]⟩, .file, 1, 1, 420⟩]) = true := by
  have h := c1_unpack_rejects_traversal defaultLimits [] [] traversalEntry
    [] [] ⟨⟨true, ["etc", "passwd"]⟩, .file, 1, 1, 420⟩ (by decide) (by decide)
  exact ⟨by decide, h.1.2 initState rfl, h.2.1⟩

/-- C1 counterexample: the archive `[bigEntry, traversalEntry]` contains an
entry whose path contains `..`, yet `unpack` with the default limits returns
`LimitExceeded` (the oversized first entry fails the individual-file-size
check before the traversal entry is reached), not `PathValidation` as the
claim states. -/
theorem c1_counterexample :
    badEntryPath traversalEntry.path = true ∧
    unpack_zip defaultLimits [bigEntry, traversalEntry] =
      .error (.limitExceeded (individualSizeMsg 2147483648 defaultLimits)) ∧
    isPathValidationError (unpack_zip defaultLimits [bigEntry, traversalEntry]) = false := by
  refine ⟨by decide, by decide, by decide⟩

/-- C2: during zip extraction, for a file entry with a valid path, the four
limit checks run in the source order before the entry's bytes are written:
(1) the step fails with `LimitExceeded` exactly when the running file count
has reached `max_file_count`, the declared size exceeds
`max_individual_file_bytes`, the compressed size is positive and the
integer ratio declared/compressed exceeds `max_decompression_ratio`, or the
cumulative extracted bytes plus the declared size exceed
`max_total_extracted_bytes`; (2)-(5) the error message identifies the first
failing check in that order; (6) only when all four checks pass is the
entry written (its bytes capped at the declared size by the limited
reader), the file count incremented and the total advanced. -/
theorem c2_zip_limit_checks (limits : ExtractionLimits) (st : ExtractState)
    (e : ZipEntry) (hkind : e.kind = EntryKind.file)
    (hpath : badEntryPath e.path = false) :
    ((∃ msg, zipStep limits st e = .error (.limitExceeded msg)) ↔
      (limits.max_file_count ≤ st.fileCount ∨
       limits.max_individual_file_bytes < e.size ∨
       (0 < e.compressedSize ∧
         limits.max_decompression_ratio < e.size / e.compressedSize) ∨
       limits.max_total_extracted_bytes < st.totalBytes + e.size)) ∧
    (limits.max_file_count ≤ st.fileCount →
      zipStep limits st e = .error (.limitExceeded (fileCountMsg limits))) ∧
    (st.fileCount < limits.max_file_count →
     limits.max_individual_file_bytes < e.size →
      zipStep limits st e = .error (.limitExceeded (individualSizeMsg e.size limits))) ∧
    (st.fileCount < limits.max_file_count →
     e.size ≤ limits.max_individual_file_bytes →
     0 < e.compressedSize →
     limits.max_decompression_ratio < e.size / e.compressedSize →
      zipStep limits st e =
        .error (.limitExceeded (ratioMsg (e.size / e.compressedSize) limits))) ∧
    (st.fileCount < limits.max_file_count →
     e.size ≤ limits.max_individual_file_bytes →
     ¬ (0 < e.compressedSize ∧
         limits.max_decompression_ratio < e.size / e.compressedSize) →
     limits.max_total_extracted_bytes < st.totalBytes + e.size →
      zipStep limits st e = .error (.limitExceeded (totalBytesMsg limits))) ∧
    (st.fileCount < limits.max_file_count →
     e.size ≤ limits.max_individual_file_bytes →
     ¬ (0 < e.compressedSize ∧
         limits.max_decompression_ratio < e.size / e.compressedSize) →
     st.totalBytes + e.size ≤ limits.max_total_extracted_bytes →
      zipStep limits st e = .ok { st with
        totalBytes := st.totalBytes + min e.dataLen e.size,
        fileCount := st.fileCount + 1,
        files := st.files ++ [(e.path.components, min e.dataLen e.size)] }) := by
  have habs : e.path.absolute = false := by
    unfold badEntryPath at hpath
    exact (Bool.or_eq_false_iff.mp hpath).1
  have hcon : ¬ ".." ∈ e.path.components := by
    unfold badEntryPath at hpath
    have := (Bool.or_eq_false_iff.mp hpath).2
    simpa using this
  have hstep : zipStep limits st e =
      (if limits.max_file_count ≤ st.fileCount then
        .error (.limitExceeded (fileCountMsg limits))
      else if limits.max_individual_file_bytes < e.size then
        .error (.limitExceeded (individualSizeMsg e.size limits))
      else if 0 < e.compressedSize ∧
          limits.max_decompression_ratio < e.size / e.compressedSize then
        .error (.limitExceeded (ratioMsg (e.size / e.compressedSize) limits))
      else if limits.max_total_extracted_bytes < st.totalBytes + e.size then
        .error (.limitExceeded (totalBytesMsg limits))
      else .ok { st with
        totalBytes := st.totalBytes + min e.dataLen e.size,
        fileCount := st.fileCount + 1,
        files := st.files ++ [(e.path.components, min e.dataLen e.size)] }) := by
    simp [zipStep, enclosedName, validate_path, habs, hcon, hkind]
  refine ⟨?_, ?_, ?_, ?_, ?_, ?_⟩
  · rw [hstep]
    constructor
    · intro hmsg
      by_contra hnone
      simp only [not_or] at hnone
      obtain ⟨h1, h2, h3, h4⟩ := hnone
      rw [if_neg (by omega), if_neg (by omega), if_neg h3, if_neg (by omega)] at hmsg
      obtain ⟨msg, hmsg⟩ := hmsg
      cases hmsg
    · intro hcase
      split_ifs with a b c d
      · exact ⟨_, rfl⟩
      · exact ⟨_, rfl⟩
      · exact ⟨_, rfl⟩
      · exact ⟨_, rfl⟩
      · rcases hcase with h | h | h | h
        · omega
        · omega
        · exact absurd h c
        · omega
  · intro ha
    rw [hstep, if_pos ha]
  · intro ha hb
    rw [hstep, if_neg (by omega), if_pos hb]
  · intro ha hb hc hd
    rw [hstep, if_neg (by omega), if_neg (by omega), if_pos ⟨hc, hd⟩]
  · intro ha hb hc hd
    rw [hstep, if_neg (by omega), if_neg (by omega), if_neg hc, if_pos hd]
  · intro ha hb hc hd
    rw [hstep, if_neg (by omega), if_neg (by omega), if_neg hc, if_neg (by omega)]

/-- C2 witness: the theorem applied at concrete limits `⟨1000, 10, 100, 10⟩`
and a state whose file count has already reached the limit: the step fails
with the file-count message. -/
theorem c2_witness :
    zipStep ⟨1000, 10, 100, 10⟩ ⟨0, 10, [], []⟩ ⟨⟨false, ["x"]⟩, .file, 5, 1, 5, none⟩ =
      .error (.limitExceeded (fileCountMsg ⟨1000, 10, 100, 10⟩)) := by
  exact (c2_zip_limit_checks ⟨1000, 10, 100, 10⟩ ⟨0, 10, [], []⟩
    ⟨⟨false, ["x"]⟩, .file, 5, 1, 5, none⟩ rfl (by decide)).2.1 (by decide)

theorem insertSorted_perm (x : PruneEntry) (l : List PruneEntry) :
    List.Perm (insertSorted x l) (x :: l) := by
  induction l with
  | nil => exact List.Perm.refl _
  | cons y ys ih =>
    unfold insertSorted
    split
    · exact List.Perm.refl _
    · exact (List.Perm.cons y ih).trans (List.Perm.swap x y ys)

theorem sortReleases_perm (l : List PruneEntry) :
    List.Perm (sortReleases l) l := by
  induction l with
  | nil => exact List.Perm.refl _
  | cons x xs ih =>
    exact (insertSorted_perm x (sortReleases xs)).trans (List.Perm.cons x ih)

theorem filter_beq_length_nodup (T : String) (l : List String) (h : l.Nodup) :
    (l.filter (fun t => t == T)).length = if T ∈ l then 1 else 0 := by
  induction l with
  | nil => simp
  | cons x xs ih =>
    rw [List.nodup_cons] at h
    by_cases hx : x = T
    · subst hx
      have hnil : xs.filter (fun t => t == x) = [] := by
        refine List.filter_eq_nil_iff.mpr ?_
        intro a ha hax
        exact h.1 ((beq_iff_eq.mp hax) ▸ ha)
      simp [List.filter_cons, hnil]
    · have hbeq : (x == T) = false := beq_eq_false_iff_ne.mpr hx
      have hiff : T ∈ x :: xs ↔ T ∈ xs := by
        constructor
        · intro hmem
          rcases List.mem_cons.mp hmem with h1 | h1
          · exact absurd h1.symm hx
          · exact h1
        · exact fun h1 => List.mem_cons.mpr (Or.inr h1)
      simp only [List.filter_cons, hbeq, Bool.false_eq_true, if_false, ih h.2, hiff]

theorem filter_not_deleted_length (l : List String) (T : String) (retain : Nat)
    (h : l.Nodup) :
    (l.filter (fun t =>
      ! ((l.drop retain).filter (fun t => ! (t == T))).contains t)).length =
    min retain l.length + (if T ∈ l.drop retain then 1 else 0) := by
  obtain ⟨p, hp⟩ : ∃ p, p = fun t =>
      ! ((l.drop retain).filter (fun t => ! (t == T))).contains t := ⟨_, rfl⟩
  rw [← hp]
  have hsplitnodup : (l.take retain ++ l.drop retain).Nodup := by
    rw [List.take_append_drop]
    exact h
  have hdisj : List.Disjoint (l.take retain) (l.drop retain) :=
    (List.nodup_append.mp hsplitnodup).2.2
  have hdropnodup : (l.drop retain).Nodup := (List.drop_sublist retain l).nodup h
  have hsplit : l.filter p = (l.take retain).filter p ++ (l.drop retain).filter p := by
    conv_lhs => rw [← List.take_append_drop retain l]
    exact List.filter_append _ _
  rw [hsplit, List.length_append]
  have htake : (l.take retain).filter p = l.take retain := by
    refine List.filter_eq_self.mpr ?_
    intro t ht
    simp only [hp]
    have hnd : t ∉ l.drop retain := fun hmem => hdisj ht hmem
    have hnotmem : t ∉ (l.drop retain).filter (fun s => ! (s == T)) :=
      fun hmem => hnd (List.mem_filter.mp hmem).1
    have hc : ((l.drop retain).filter (fun s => ! (s == T))).contains t = false := by
      simpa using hnotmem
    show (! ((l.drop retain).filter (fun s => ! (s == T))).contains t) = true
    rw [hc]
    rfl
  have hdrop : (l.drop retain).filter p = (l.drop retain).filter (fun t => t == T) := by
    refine List.filter_congr ?_
    intro t ht
    simp only [hp]
    by_cases htT : t = T
    · have hnotmem : t ∉ (l.drop retain).filter (fun s => ! (s == T)) := by
        intro hmem
        have h2 := (List.mem_filter.mp hmem).2
        rw [htT] at h2
        simp at h2
      have hc : ((l.drop retain).filter (fun s => ! (s == T))).contains t = false := by
        simpa using hnotmem
      show (! ((l.drop retain).filter (fun s => ! (s == T))).contains t) = (t == T)
      rw [hc, htT]
      simp
    · have hmem : t ∈ (l.drop retain).filter (fun s => ! (s == T)) := by
        refine List.mem_filter.mpr ⟨ht, ?_⟩
        simpa using htT
      have hc : ((l.drop retain).filter (fun s => ! (s == T))).contains t = true := by
        simpa using hmem
      show (! ((l.drop retain).filter (fun s => ! (s == T))).contains t) = (t == T)
      rw [hc, beq_eq_false_iff_ne.mpr htT]
      rfl
  rw [htake, hdrop, filter_beq_length_nodup T (l.drop retain) hdropnodup,
    List.length_take]

/-- C3 (amended): `prune_old_releases(dir, T, N)` never removes the
directory named `T`; and, every deletion succeeding, the number of release
subdirectories remaining afterwards equals `min(initial_count, N)` plus one
when `T` itself lies beyond the first `N` entries in (mtime desc, name
desc) order — so the remaining count is `min(initial_count, N+1)` only in
that case, and `min(initial_count, N)` when `T` is inside the retain window
or absent. -/
theorem c3_prune_retention (entries : List PruneEntry) (T : String) (retain : Nat)
    (h : (entries.map PruneEntry.tag).Nodup) :
    ¬ T ∈ (prune_old_releases entries T retain).1 ∧
    (prune_old_releases entries T retain).2 = [] ∧
    remainingReleaseCount entries T retain =
      min entries.length retain +
        (if T ∈ ((sortReleases entries).drop retain).map PruneEntry.tag
          then 1 else 0) := by
  refine ⟨?_, rfl, ?_⟩
  · intro hT
    have := List.mem_filter.mp hT
    simp at this
  · have hperm : List.Perm ((sortReleases entries).map PruneEntry.tag)
        (entries.map PruneEntry.tag) := (sortReleases_perm entries).map PruneEntry.tag
    have hnodupS : ((sortReleases entries).map PruneEntry.tag).Nodup :=
      hperm.nodup_iff.mpr h
    have hmapdrop : ((sortReleases entries).drop retain).map PruneEntry.tag =
        ((sortReleases entries).map PruneEntry.tag).drop retain :=
      List.map_drop PruneEntry.tag (sortReleases entries) retain
    have hdelEq : (prune_old_releases entries T retain).1 =
        (((sortReleases entries).map PruneEntry.tag).drop retain).filter
          (fun t => ! (t == T)) := by
      show (((sortReleases entries).drop retain).map PruneEntry.tag).filter
          (fun t => ! (t == T)) =
        (((sortReleases entries).map PruneEntry.tag).drop retain).filter
          (fun t => ! (t == T))
      rw [hmapdrop]
    have hcount : remainingReleaseCount entries T retain =
        (((sortReleases entries).map PruneEntry.tag).filter
          (fun t => ! (prune_old_releases entries T retain).1.contains t)).length := by
      unfold remainingReleaseCount
      exact ((hperm.filter
        (fun t => ! (prune_old_releases entries T retain).1.contains t)).length_eq).symm
    rw [hcount, hdelEq,
      filter_not_deleted_length ((sortReleases entries).map PruneEntry.tag) T retain hnodupS,
      hperm.length_eq, List.length_map, Nat.min_comm, hmapdrop]

/-- C3 witness: the amended theorem applied to five releases `v1..v5` with
mtimes `1..5`, current tag `v5` (the newest) and retain 3: nothing removes
`v5`, no deletion fails, and `min(5, 3) + 0 = 3` directories remain. -/
theorem c3_witness :
    ¬ "v5" ∈ (prune_old_releases
        [⟨"v1", 1⟩, ⟨"v2", 2⟩, ⟨"v3", 3⟩, ⟨"v4", 4⟩, ⟨"v5", 5⟩] "v5" 3).1 ∧
    remainingReleaseCount
        [⟨"v1", 1⟩, ⟨"v2", 2⟩, ⟨"v3", 3⟩, ⟨"v4", 4⟩, ⟨"v5", 5⟩] "v5" 3 =
      min 5 3 + (if "v5" ∈ ((sortReleases
        [⟨"v1", 1⟩, ⟨"v2", 2⟩, ⟨"v3", 3⟩, ⟨"v4", 4⟩, ⟨"v5", 5⟩]).drop 3).map
          PruneEntry.tag then 1 else 0) := by
  have h := c3_prune_retention
    [⟨"v1", 1⟩, ⟨"v2", 2⟩, ⟨"v3", 3⟩, ⟨"v4", 4⟩, ⟨"v5", 5⟩] "v5" 3 (by decide)
  exact ⟨h.1, h.2.2⟩

/-- C3 counterexample: with five releases `v1..v5` (mtimes `1..5`), current
tag `v5` and retain 3, pruning deletes `v2` and `v1`, leaving 3 release
directories — not `min(5, 3+1) = 4` as the claim states. -/
theorem c3_counterexample :
    (prune_old_releases
        [⟨"v1", 1⟩, ⟨"v2", 2⟩, ⟨"v3", 3⟩, ⟨"v4", 4⟩, ⟨"v5", 5⟩] "v5" 3).1 =
      ["v2", "v1"] ∧
    remainingReleaseCount
        [⟨"v1", 1⟩, ⟨"v2", 2⟩, ⟨"v3", 3⟩, ⟨"v4", 4⟩, ⟨"v5", 5⟩] "v5" 3 = 3 ∧
    remainingReleaseCount
        [⟨"v1", 1⟩, ⟨"v2", 2⟩, ⟨"v3", 3⟩, ⟨"v4", 4⟩, ⟨"v5", 5⟩] "v5" 3 ≠
      min ([(⟨"v1", 1⟩ : PruneEntry), ⟨"v2", 2⟩, ⟨"v3", 3⟩, ⟨"v4", 4⟩,
        ⟨"v5", 5⟩].length) (3 + 1) := by
  refine ⟨by decide, by decide, by decide⟩

/-- C4: when `<releases_dir>/<tag>` already exists, `atomic_move` fails with
`AlreadyExists` naming the target, and the filesystem — in particular both
the source directory subtree and the existing target — is unchanged: the
single `RENAME_NOREPLACE` call fails without modifying anything, with no
stat-then-rename window. -/
theorem c4_atomic_move_noreplace (fs : FsMap) (src rel : List String)
    (tag : String) (h : (rel ++ [tag]) ∈ fs.map Prod.fst) :
    atomic_move fs src rel tag =
      (.error (.alreadyExists (joinPath (rel ++ [tag]))), fs) := by
  have hany : fs.any (fun kv => kv.1 == rel ++ [tag]) = true := by
    rw [List.any_eq_true]
    obtain ⟨kv, hkv, hfst⟩ := List.mem_map.mp h
    exact ⟨kv, hkv, by simp [hfst]⟩
  simp [atomic_move, renameNoreplace, hany]

/-- C4 witness: the theorem applied to a filesystem that already holds
`opt/app/releases/v1`. -/
theorem c4_witness :
    atomic_move
      [(["opt", "app", "releases", "v1"], FsNode.dirNode),
       (["opt", "app", "staging", "v1.rnd"], FsNode.dirNode)]
      ["opt", "app", "staging", "v1.rnd"] ["opt", "app", "releases"] "v1" =
    (.error (.alreadyExists (joinPath (["opt", "app", "releases"] ++ ["v1"]))),
      [(["opt", "app", "releases", "v1"], FsNode.dirNode),
       (["opt", "app", "staging", "v1.rnd"], FsNode.dirNode)]) := by
  exact c4_atomic_move_noreplace _ _ _ _ (by decide)

theorem mem_writeLink (bins : List (String × BinNode)) (f target n : String)
    (x : BinNode) :
    (n, x) ∈ writeLink bins f target ↔
      (((n, x) ∈ bins ∧ n ≠ f ∧ n ≠ f ++ ".tmp") ∨
        (n = f ∧ x = .symlink target)) := by
  unfold writeLink
  rw [List.mem_append, List.mem_filter]
  constructor
  · rintro (⟨hmem, hcond⟩ | hlast)
    · simp only [Bool.and_eq_true, Bool.not_eq_true'] at hcond
      refine Or.inl ⟨hmem, ?_, ?_⟩
      · exact fun hnf => by simp [hnf] at hcond
      · exact fun hnf => by simp [hnf] at hcond
    · simp only [List.mem_singleton, Prod.mk.injEq] at hlast
      exact Or.inr hlast
  · rintro (⟨hmem, h1, h2⟩ | ⟨h1, h2⟩)
    · refine Or.inl ⟨hmem, ?_⟩
      simp only [Bool.and_eq_true, Bool.not_eq_true']
      exact ⟨beq_eq_false_iff_ne.mpr h1, beq_eq_false_iff_ne.mpr h2⟩
    · refine Or.inr ?_
      simp [h1, h2]

theorem writeLinks_preserves (tag : String) (n : String) (x : BinNode) :
    ∀ (exes : List (List String)) (bins res : List (String × BinNode)),
    writeLinks tag exes bins = .ok res →
    (∀ rel, rel ∈ exes → ∀ f, rel.getLast? = some f →
      n ≠ f ∧ n ≠ f ++ ".tmp") →
    (n, x) ∈ bins → (n, x) ∈ res := by
  intro exes
  induction exes with
  | nil =>
    intro bins res hok _ hmem
    cases hok
    exact hmem
  | cons rel rest ih =>
    intro bins res hok hnames hmem
    unfold writeLinks at hok
    cases hlast : rel.getLast? with
    | none =>
      rw [hlast] at hok
      cases hok
    | some f =>
      rw [hlast] at hok
      refine ih _ res hok (fun r hr => hnames r (List.mem_cons.mpr (Or.inr hr))) ?_
      rw [mem_writeLink]
      exact Or.inl ⟨hmem, hnames rel (List.mem_cons.mpr (Or.inl rfl)) f hlast⟩

theorem writeLinks_absent (tag : String) (n : String) (x : BinNode) :
    ∀ (exes : List (List String)) (bins res : List (String × BinNode)),
    writeLinks tag exes bins = .ok res →
    (∀ rel, rel ∈ exes → ∀ f, rel.getLast? = some f → n ≠ f) →
    ¬ (n, x) ∈ bins → ¬ (n, x) ∈ res := by
  intro exes
  induction exes with
  | nil =>
    intro bins res hok _ hmem
    cases hok
    exact hmem
  | cons rel rest ih =>
    intro bins res hok hnames hmem
    unfold writeLinks at hok
    cases hlast : rel.getLast? with
    | none =>
      rw [hlast] at hok
      cases hok
    | some f =>
      rw [hlast] at hok
      refine ih _ res hok (fun r hr => hnames r (List.mem_cons.mpr (Or.inr hr))) ?_
      rw [mem_writeLink]
      rintro (⟨hmem2, _, _⟩ | ⟨h1, _⟩)
      · exact hmem hmem2
      · exact hnames rel (List.mem_cons.mpr (Or.inl rfl)) f hlast h1

theorem mem_currentNames (rf : List (List String × Nat)) (rel : List String)
    (f : String) (hrel : rel ∈ discover_executables rf)
    (hf : rel.getLast? = some f) : f ∈ currentNames rf := by
  unfold currentNames
  exact List.mem_filterMap.mpr ⟨rel, hrel, hf⟩

/-- C5 (amended): after `link_binaries(release_dir, bin_dir)` succeeds,
every pre-existing symlink in `bin_dir` whose target begins with
`../releases/` and whose basename is not among the discovered executables'
basenames has been removed; and every pre-existing symlink whose target
does not begin with `../releases/` is left untouched — provided its name is
neither a new executable's basename (in which case the write loop replaces
it with the new release link) nor `<basename>.tmp` for a new executable (in
which case the temp-name-then-rename write removes it). -/
theorem c5_link_binaries_sweep (rd : List String)
    (rf : List (List String × Nat)) (bins res : List (String × BinNode))
    (hok : link_binaries rd rf bins = .ok res) :
    (∀ n t, (n, BinNode.symlink t) ∈ bins →
      strStartsWith t "../releases/" = true →
      ¬ n ∈ currentNames rf →
      ¬ (n, BinNode.symlink t) ∈ res) ∧
    (∀ n t, (n, BinNode.symlink t) ∈ bins →
      strStartsWith t "../releases/" = false →
      ¬ n ∈ currentNames rf →
      (∀ m, m ∈ currentNames rf → n ≠ m ++ ".tmp") →
      (n, BinNode.symlink t) ∈ res) := by
  unfold link_binaries at hok
  cases hlast : rd.getLast? with
  | none =>
    rw [hlast] at hok
    cases hok
  | some tag =>
    rw [hlast] at hok
    constructor
    · intro n t hmem hrel hname
      have hsweep : ¬ (n, BinNode.symlink t) ∈
          sweepStale ((discover_executables rf).filterMap List.getLast?) bins := by
        intro hmem2
        have hpred := (List.mem_filter.mp hmem2).2
        have hname2 : ¬ n ∈ (discover_executables rf).filterMap List.getLast? := hname
        have hcontains :
            ((discover_executables rf).filterMap List.getLast?).contains n = false := by
          simpa using hname2
        have hstale : isStaleLink ((discover_executables rf).filterMap List.getLast?)
            n (BinNode.symlink t) = true := by
          show (strStartsWith t "../releases/" &&
            ! ((discover_executables rf).filterMap List.getLast?).contains n) = true
          rw [hrel, hcontains]
          rfl
        rw [hstale] at hpred
        simp at hpred
      refine writeLinks_absent tag n (BinNode.symlink t) _ _ res hok ?_ hsweep
      intro rel hrel2 f hf hnf
      exact hname (hnf ▸ mem_currentNames rf rel f hrel2 hf)
    · intro n t hmem hrel hname htmp
      have hsweep : (n, BinNode.symlink t) ∈
          sweepStale ((discover_executables rf).filterMap List.getLast?) bins := by
        refine List.mem_filter.mpr ⟨hmem, ?_⟩
        simp [isStaleLink, hrel]
      refine writeLinks_preserves tag n (BinNode.symlink t) _ _ res hok ?_ hsweep
      intro rel hrel2 f hf
      have hfmem : f ∈ currentNames rf := mem_currentNames rf rel f hrel2 hf
      exact ⟨fun hnf => hname (hnf ▸ hfmem), htmp f hfmem⟩

/-- C5 witness: the amended theorem applied to a bin directory holding the
stale release link `stale -> ../releases/v0/stale` and the non-managed link
`other -> /usr/bin/other`, with the new release containing one executable
`app`: the stale link is gone and the non-managed link survives. -/
theorem c5_witness :
    ¬ ("stale", BinNode.symlink "../releases/v0/stale") ∈
      [("other", BinNode.symlink "/usr/bin/other"),
       ("app", BinNode.symlink "../releases/v1/app")] ∧
    ("other", BinNode.symlink "/usr/bin/other") ∈
      [("other", BinNode.symlink "/usr/bin/other"),
       ("app", BinNode.symlink "../releases/v1/app")] := by
  have h := c5_link_binaries_sweep ["releases", "v1"] [(["app"], 0o755)]
    [("stale", BinNode.symlink "../releases/v0/stale"),
     ("other", BinNode.symlink "/usr/bin/other")]
    [("other", BinNode.symlink "/usr/bin/other"),
     ("app", BinNode.symlink "../releases/v1/app")] rfl
  refine ⟨h.1 "stale" "../releases/v0/stale" (by decide) (by decide) (by decide),
    h.2 "other" "/usr/bin/other" (by decide) (by decide) (by decide) ?_⟩
  intro m hm
  simp only [currentNames, discover_executables] at hm
  simp at hm
  rw [hm]
  decide

/-- C5 counterexample: two pre-existing symlinks whose targets do not begin
with `../releases/` are nevertheless not left untouched. With one executable
`app` in the release: (a) the non-release symlink `app -> /usr/local/bin/app`
is overwritten by the new release link; (b) the non-release symlink
`app.tmp -> /ext/t` is removed by the temp-name-then-rename write. -/
theorem c5_counterexample :
    (link_binaries ["releases", "v2"] [(["app"], 0o755)]
        [("app", BinNode.symlink "/usr/local/bin/app")] =
      .ok [("app", BinNode.symlink "../releases/v2/app")] ∧
    ¬ ("app", BinNode.symlink "/usr/local/bin/app") ∈
        [("app", BinNode.symlink "../releases/v2/app")]) ∧
    (link_binaries ["releases", "v2"] [(["app"], 0o755)]
        [("app.tmp", BinNode.symlink "/ext/t")] =
      .ok [("app", BinNode.symlink "../releases/v2/app")] ∧
    ¬ ("app.tmp", BinNode.symlink "/ext/t") ∈
        [("app", BinNode.symlink "../releases/v2/app")]) := by
  refine ⟨⟨by decide, by decide⟩, by decide, by decide⟩

theorem deserialize_serialize (s : State) :
    deserialize_state (serialize_state s) = some s := rfl

/-- C6: for every state value `S`, every path `p` and every starting file
system, `save(p, S)` followed by `load(p)` returns exactly `S`: the
persisted state document round-trips. -/
theorem c6_state_roundtrip (fs : StateFs) (p : String) (s : State) :
    load (save_atomic fs p s) p = .ok (some s) := by
  have hread : save_atomic fs p s p = some (serialize_state s) := by
    unfold save_atomic
    rw [if_pos rfl]
  unfold load
  rw [hread]
  rfl

/-- C7: the manifest line of 63 `a` characters, `é`, and `  x` is non-empty,
is not a comment and is not of the manifest shape, yet `parse_checksum_text`
does not return a `ParseError`: it panics, because `str::split_at(64)` is
applied at a byte index that falls inside the two-byte character `é`
(bytes 63-64). The line is 68 bytes long, so it passes the length guard. -/
theorem c7_parser_crash :
    parse_checksum_text crashLine = ChecksumParse.crash ∧
    utf8Len crashLine = 68 ∧
    parse_checksum_line crashLine = LineParse.crash := by
  refine ⟨by decide, by decide, by decide⟩

/-- C8: with no installed tag, the `version` subcommand as dispatched by
main.rs prints `No version installed` to stderr and exits with status 1,
while `cli::handle_version` — the behaviour the claim and the repository's
own tests (tests/cli_version.rs, `version_with_no_installation`) describe —
produces empty output and exits 0. With a tag installed both print the tag. -/
theorem c8_version_no_tag_divergence :
    mainVersionCommand none = ⟨"", "No version installed\n", 1⟩ ∧
    handle_version none = ⟨"", "", 0⟩ ∧
    (mainVersionCommand none).exit ≠ 0 ∧
    mainVersionCommand (some "v1.2.3") = ⟨"v1.2.3\n", "", 0⟩ ∧
    handle_version (some "v1.2.3") = ⟨"v1.2.3\n", "", 0⟩ := by
  refine ⟨rfl, rfl, by decide, rfl, rfl⟩

/-- C9 (amended): every request built by the downloader carries exactly one
`Authorization` header, whose value is `Bearer <token>` with `<token>` the
caller-supplied token, or the empty string when the caller supplied none
(main.rs passes `github_token.unwrap_or("")` and download.rs attaches the
header unconditionally). -/
theorem c9_auth_header_always (url : String) (tok : Option String)
    (r : HttpRequest) (h : download_request url tok = .ok r) :
    r.headers = [("Authorization", "Bearer " ++ tok.getD "")] := by
  unfold download_request fetch_request at h
  by_cases hc : strStartsWith url "https://" = true
  · rw [hc] at h
    simp at h
    rw [← h]
  · have hc2 : strStartsWith url "https://" = false := by
      cases hval : strStartsWith url "https://"
      · rfl
      · exact absurd hval hc
    rw [hc2] at h
    simp at h

/-- C9 witness: the amended theorem applied at a concrete HTTPS URL and the
token `tok`. -/
theorem c9_witness :
    (match download_request "https://h/x" (some "tok") with
      | .ok r => r.headers
      | .error _ => []) =
    [("Authorization", "Bearer " ++ (some "tok").getD "")] := by
  have h : download_request "https://h/x" (some "tok") =
      .ok ⟨"https://h/x", [("Authorization", "Bearer tok")]⟩ := by decide
  rw [h]
  exact c9_auth_header_always "https://h/x" (some "tok") _ h

/-- C9 counterexample: with no token supplied, the download request still
carries an `Authorization` header (its value is `Bearer ` with an empty
credential), contradicting the claim that no such header is sent. -/
theorem c9_counterexample :
    download_request "https://example.com/asset.zip" none =
      .ok ⟨"https://example.com/asset.zip", [("Authorization", "Bearer ")]⟩ ∧
    hasAuthHeader ⟨"https://example.com/asset.zip",
      [("Authorization", "Bearer ")]⟩ = true := by
  refine ⟨by decide, by decide⟩

theorem mapLookup_insert (m : List (String × String)) (kv : String × String)
    (k : String) :
    mapLookup (mapInsert m kv) k =
      if k = kv.1 then some kv.2 else mapLookup m k := by
  unfold mapLookup mapInsert
  rw [List.find?_append]
  by_cases hk : k = kv.1
  · have hnone : (m.filter (fun e => ! (e.1 == kv.1))).find?
        (fun e => e.1 == k) = none := by
      rw [List.find?_eq_none]
      intro e he hbeq
      have h1 := (List.mem_filter.mp he).2
      rw [beq_iff_eq.mp hbeq, hk] at h1
      simp at h1
    rw [hnone]
    have hfind : List.find? (fun e => e.1 == k) [kv] = some kv := by
      have : (kv.1 == k) = true := by
        rw [hk]
        exact beq_self_eq_true _
      simp [List.find?, this]
    rw [hfind, if_pos hk]
    rfl
  · have hfind : List.find? (fun e => e.1 == k) [kv] = none := by
      have : (kv.1 == k) = false := by
        refine beq_eq_false_iff_ne.mpr ?_
        exact fun h1 => hk h1.symm
      simp [List.find?, this]
    rw [hfind, if_neg hk]
    have hsame : (m.filter (fun e => ! (e.1 == kv.1))).find? (fun e => e.1 == k) =
        m.find? (fun e => e.1 == k) := by
      induction m with
      | nil => rfl
      | cons e rest ih =>
        by_cases he : e.1 = kv.1
        · have hq : (! (e.1 == kv.1)) = false := by
            simp [he]
          have hp : (e.1 == k) = false := by
            refine beq_eq_false_iff_ne.mpr ?_
            rw [he]
            exact fun h1 => hk h1.symm
          rw [List.filter_cons, hq]
          simp only [Bool.false_eq_true, if_false]
          rw [ih]
          rw [List.find?]
          rw [hp]
        · have hq : (! (e.1 == kv.1)) = true := by
            simp [he]
          rw [List.filter_cons, hq]
          simp only [if_true]
          rw [List.find?, List.find?]
          cases hp : (e.1 == k)
          · exact ih
          · rfl
    rw [hsame]
    cases m.find? (fun e => e.1 == k) <;> rfl

theorem lastEntryHex_concat (es : List (String × String)) (hf : String × String)
    (asset : String) :
    lastEntryHex (es ++ [hf]) asset =
      if asset = hf.2 then some hf.1 else lastEntryHex es asset := by
  unfold lastEntryHex
  rw [List.filter_append]
  by_cases h : asset = hf.2
  · have hkeep : List.filter (fun x => x.2 == asset) [hf] = [hf] := by
      have : (hf.2 == asset) = true := by
        rw [h]
        exact beq_self_eq_true _
      simp [List.filter, this]
    rw [hkeep, List.getLast?_concat, if_pos h]
    rfl
  · have hdroppped : List.filter (fun x => x.2 == asset) [hf] = [] := by
      have : (hf.2 == asset) = false := by
        refine beq_eq_false_iff_ne.mpr ?_
        exact fun h1 => h h1.symm
      simp [List.filter, this]
    rw [hdroppped, List.append_nil, if_neg h]

theorem checksumsOf_concat (es : List (String × String)) (hf : String × String) :
    checksumsOf (es ++ [hf]) = mapInsert (checksumsOf es) (hf.2, hf.1) := by
  unfold checksumsOf hashMapCollect
  rw [List.map_append, List.foldl_append]
  rfl

/-- C10: looking an asset name up in the checksum map built by
`fetch_and_verify_checksum` yields the hex of the last manifest line naming
that asset — later manifest entries for a filename silently override
earlier ones — and verification therefore compares the downloaded file's
SHA-256 against that last entry. -/
theorem c10_last_entry_wins (entries : List (String × String))
    (asset actual : String) :
    mapLookup (checksumsOf entries) asset = lastEntryHex entries asset ∧
    verify_against_checksums entries asset actual =
      (match lastEntryHex entries asset with
        | none => VerifyOutcome.notFound asset
        | some expected =>
          if eqIgnoreAsciiCase actual expected then VerifyOutcome.ok
          else VerifyOutcome.mismatch expected actual) := by
  have hmain : mapLookup (checksumsOf entries) asset = lastEntryHex entries asset := by
    induction entries using List.reverseRecOn with
    | nil => rfl
    | append_singleton es hf ih =>
      rw [checksumsOf_concat, mapLookup_insert, lastEntryHex_concat, ih]
  refine ⟨hmain, ?_⟩
  unfold verify_against_checksums
  rw [hmain]
